import Mathlib

/-!
Verification of the block locator and field patcher scripts of the
gridway repository (fix_txresponse.py, fix_all_txresponse.py and
scripts/generate-claude-md.py).  Python strings are modelled as lists of
characters; the line-oriented scanning loops are modelled as fuel-indexed
structural recursions where the fuel is instantiated large enough that it
never runs out before the loop condition of the source becomes false.
-/

/-- Python strings as lists of characters. -/
abbrev Line := List Char

/-- Convert a Lean string literal to the character-list model. -/
def lc (s : String) : Line := s.toList

/-- The whitespace class used by Python str.strip / str.rstrip and by the
regex class backslash-s, restricted to its ASCII part. -/
def pyIsSpace (c : Char) : Bool :=
  c = ' ' || c = '\t' || c = '\n' || c = '\r' || c = '\x0b' || c = '\x0c'

/-- Word characters for the regex word-boundary assertion. -/
def isWordChar (c : Char) : Bool := c.isAlphanum || c = '_'

/-- Python s.split(sep) for a one-character separator: always returns at
least one piece, and the empty string splits to one empty piece. -/
def pySplit (sep : Char) : Line → List Line
  | [] => [[]]
  | c :: rest =>
    if c = sep then [] :: pySplit sep rest
    else
      match pySplit sep rest with
      | [] => [[c]]
      | h :: t => (c :: h) :: t

/-- Python sep.join(pieces) for a one-character separator. -/
def pyJoin (sep : Char) : List Line → Line
  | [] => []
  | [l] => l
  | l :: ls => l ++ sep :: pyJoin sep ls

/-- Boolean prefix test on character lists. -/
def listStarts : Line → Line → Bool
  | [], _ => true
  | _ :: _, [] => false
  | p :: ps, c :: cs => p = c && listStarts ps cs

/-- Python substring containment (the `in` operator on strings). -/
def containsSub (pat : Line) : Line → Bool
  | [] => listStarts pat []
  | c :: t => listStarts pat (c :: t) || containsSub pat t

/-- Python str.lstrip(). -/
def pyLstrip (l : Line) : Line := l.dropWhile pyIsSpace

/-- Python str.rstrip(). -/
def pyRstrip (l : Line) : Line := (l.reverse.dropWhile pyIsSpace).reverse

/-- Python str.strip(). -/
def pyStrip (l : Line) : Line := pyLstrip (pyRstrip l)

/-- Python str.endswith for a suffix literal. -/
def pyEndsWith (suf l : Line) : Bool := listStarts suf.reverse l.reverse

/-- Python str.count for a single character. -/
def countChar (c : Char) (l : Line) : Nat := (l.filter (fun x => x = c)).length

/-- get_indent from fix_txresponse.py (line 121): the leading whitespace of
a line, obtained as the prefix removed by lstrip. -/
def get_indent (line : Line) : Line := line.takeWhile pyIsSpace

/-- Python str.lower(), ASCII part. -/
def pyLower (l : Line) : Line := l.map Char.toLower

/-!
## A small model of the Python regular expressions used by the scripts

The patterns appearing in fix_txresponse.py combine literals, the classes
backslash-s, backslash-d, dot and a negated class, greedy star and plus on
classes, the word-boundary assertion and lookahead assertions.  Matching is
Python-style backtracking; since re.search is only used for its truth
value, matching is modelled as the existence of some way to match, which
coincides with the backtracking result.
-/

/-- Regular expression fragment: character classes under star and plus are
always single-character classes, as in the source patterns. -/
inductive RE where
  | eps : RE
  | cls : (Char → Bool) → RE
  | seq : RE → RE → RE
  | star : (Char → Bool) → RE
  | plus : (Char → Bool) → RE
  | wb : RE
  | nla : RE → RE
  | pla : RE → RE

/-- Is the current position a word boundary, given the previous character
(none at string start) and the remainder of the string? -/
def atBoundary (prev : Option Char) (s : Line) : Bool :=
  let pw := match prev with
    | none => false
    | some c => isWordChar c
  let nw := match s with
    | [] => false
    | c :: _ => isWordChar c
  pw != nw

/-- Iterated matching of a character class (the body of star and plus):
either consume one more class character or stop and hand the rest to the
continuation.  The disjunction makes the result the existence of a match,
which is what a backtracking engine decides. -/
def clsRun (p : Char → Bool) (prev : Option Char) :
    Line → (Option Char → Line → Bool) → Bool
  | [], k => k prev []
  | c :: rest, k =>
    if p c then clsRun p (some c) rest k || k prev (c :: rest)
    else k prev (c :: rest)

/-- Does the regex match some prefix of s (given the previous character for
word boundaries), such that the continuation accepts the remainder? -/
def reMatch : RE → Option Char → Line → (Option Char → Line → Bool) → Bool
  | .eps, prev, s, k => k prev s
  | .cls p, _, s, k =>
    match s with
    | [] => false
    | c :: rest => p c && k (some c) rest
  | .seq a b, prev, s, k =>
    reMatch a prev s (fun prev2 s2 => reMatch b prev2 s2 k)
  | .star p, prev, s, k => clsRun p prev s k
  | .plus p, _, s, k =>
    match s with
    | [] => false
    | c :: rest => p c && clsRun p (some c) rest k
  | .wb, prev, s, k => atBoundary prev s && k prev s
  | .nla r, prev, s, k => !(reMatch r prev s (fun _ _ => true)) && k prev s
  | .pla r, prev, s, k => reMatch r prev s (fun _ _ => true) && k prev s

/-- A literal word as a regex. -/
def reLit (cs : Line) : RE :=
  cs.foldr (fun c acc => .seq (.cls (fun x => x = c)) acc) .eps

/-- Sequence a list of regexes. -/
def reSeqs (l : List RE) : RE := l.foldr .seq .eps

/-- Try to match at the current position or at any later one. -/
def reSearchFrom (r : RE) : Option Char → Line → Bool
  | prev, [] => reMatch r prev [] (fun _ _ => true)
  | prev, c :: t =>
    reMatch r prev (c :: t) (fun _ _ => true) || reSearchFrom r (some c) t

/-- Truth value of Python re.search(pattern, s). -/
def reSearch (r : RE) (s : Line) : Bool := reSearchFrom r none s

/-- The lookahead body backslash-s* as backslash-s* i64 of the two gas
patterns. -/
def reAsI64 : RE :=
  reSeqs [.star pyIsSpace, reLit (lc "as"), .star pyIsSpace, reLit (lc "i64")]

/-- Presence pattern for a field name on the joined block text
(fix_txresponse.py lines 71-76). -/
def patPresence (name : String) : RE :=
  reSeqs [.wb, reLit (lc name), .star pyIsSpace, .cls (fun c => c = ':')]

/-- The numeric gas pattern of lines 80 and 86: word boundary, the name,
colon, digits, then a negative lookahead refusing the annotation. -/
def patGasNum (name : String) : RE :=
  reSeqs [.wb, reLit (lc name), .star pyIsSpace, .cls (fun c => c = ':'),
          .star pyIsSpace, .plus Char.isDigit, .nla reAsI64]

/-- The expression gas pattern of lines 82 and 88: a token without commas
or whitespace, the negative lookahead, and a positive lookahead requiring
a following comma. -/
def patGasExpr (name : String) : RE :=
  reSeqs [.wb, reLit (lc name), .star pyIsSpace, .cls (fun c => c = ':'),
          .star pyIsSpace, .plus (fun c => !(c = ',' || pyIsSpace c)),
          .nla reAsI64, .pla (.seq (.star pyIsSpace) (.cls (fun c => c = ',')))]

/-- The anchor pattern of line 95: code, colon, digits, comma. -/
def patCode : RE :=
  reSeqs [.wb, reLit (lc "code"), .star pyIsSpace, .cls (fun c => c = ':'),
          .star pyIsSpace, .plus Char.isDigit, .star pyIsSpace,
          .cls (fun c => c = ',')]

/-- The anchor patterns of lines 101 and 107: the name, colon, anything but
a newline, then a comma. -/
def patFieldComma (name : String) : RE :=
  reSeqs [.wb, reLit (lc name), .star pyIsSpace, .cls (fun c => c = ':'),
          .star (fun c => !(c = '\n')), .cls (fun c => c = ',')]

/-!
## The two re.sub substitutions of fix_txresponse.py

Both substitution patterns are free of lookaheads, and every greedy
quantifier in them is forced (a star of whitespace followed by a non-space
character, or a final maximal run), so each substitution is computed by a
deterministic left-to-right scan that replaces each non-overlapping
leftmost match and resumes after the matched text, exactly as re.sub does.
-/

/-- One attempted match of the pattern group ( word-boundary NAME
backslash-s* : backslash-s* ) ( backslash-d+ ) at the current position;
on success returns the matched text and the remainder.  The whitespace
stars are maximal because their successors (colon, digit) are not
whitespace, and the digit run is maximal because nothing follows it. -/
def gasNumHere (name : Line) (prev : Option Char) (s : Line) :
    Option (Line × Line) :=
  if atBoundary prev s && listStarts name s then
    let s1 := s.drop name.length
    let w1 := s1.takeWhile pyIsSpace
    match s1.dropWhile pyIsSpace with
    | ':' :: s3 =>
      let w2 := s3.takeWhile pyIsSpace
      let s4 := s3.dropWhile pyIsSpace
      let d := s4.takeWhile Char.isDigit
      if d.isEmpty then none
      else some (name ++ w1 ++ ':' :: (w2 ++ d), s4.dropWhile Char.isDigit)
    | _ => none
  else none

/-- Python re.sub for the numeric gas pattern (lines 81 and 87): the
replacement re-emits both groups and appends the annotation.  The fuel is
the length of the string; every step consumes at least one character. -/
def subGasNumGo (name : Line) : Nat → Option Char → Line → Line
  | 0, _, s => s
  | fuel+1, prev, s =>
    match s with
    | [] => []
    | c :: t =>
      match gasNumHere name prev s with
      | some (m, rest) =>
        m ++ lc " as i64" ++ subGasNumGo name fuel m.getLast? rest
      | none => c :: subGasNumGo name fuel (some c) t

def subGasNum (name : Line) (s : Line) : Line := subGasNumGo name s.length none s

/-- One attempted match of ( word-boundary NAME backslash-s* :
backslash-s* ) ( [^,]+ ) at the current position, returning group one,
group two and the remainder.  The greedy whitespace star keeps its maximal
run when a non-comma character follows; when the character after the run
is a comma or the string ends, the engine backtracks one step and the
last whitespace character becomes the whole of group two. -/
def gasExprHere (name : Line) (prev : Option Char) (s : Line) :
    Option (Line × Line × Line) :=
  if atBoundary prev s && listStarts name s then
    let s1 := s.drop name.length
    let w1 := s1.takeWhile pyIsSpace
    match s1.dropWhile pyIsSpace with
    | ':' :: s3 =>
      let w2 := s3.takeWhile pyIsSpace
      let s4 := s3.dropWhile pyIsSpace
      if (s4.head?).all (fun c => c = ',') then
        match w2.getLast? with
        | some lw => some (name ++ w1 ++ ':' :: w2.dropLast, [lw], s4)
        | none => none
      else
        some (name ++ w1 ++ ':' :: w2,
              s4.takeWhile (fun x => !(x = ',')),
              s4.dropWhile (fun x => !(x = ',')))
    | _ => none
  else none

/-- Python re.sub for the expression gas pattern: gas_wanted (line 84)
wraps group two in parentheses, gas_used (line 90) does not. -/
def subGasExprGo (name : Line) (wrap : Bool) : Nat → Option Char → Line → Line
  | 0, _, s => s
  | fuel+1, prev, s =>
    match s with
    | [] => []
    | c :: t =>
      match gasExprHere name prev s with
      | some (g1, g2, rest) =>
        (if wrap then g1 ++ '(' :: (g2 ++ lc ") as i64")
         else g1 ++ g2 ++ lc " as i64")
          ++ subGasExprGo name wrap fuel g2.getLast? rest
      | none => c :: subGasExprGo name wrap fuel (some c) t

def subGasExpr (name : Line) (wrap : Bool) (s : Line) : Line :=
  subGasExprGo name wrap s.length none s

/-- Lines 79-90 of fix_txresponse.py: rewrite the gas_wanted and gas_used
values of one line, numeric values first, otherwise single-token values
followed by a comma. -/
def gasFixLine (line : Line) : Line :=
  let line :=
    if reSearch (patGasNum "gas_wanted") line then
      subGasNum (lc "gas_wanted") line
    else if reSearch (patGasExpr "gas_wanted") line then
      subGasExpr (lc "gas_wanted") true line
    else line
  if reSearch (patGasNum "gas_used") line then
    subGasNum (lc "gas_used") line
  else if reSearch (patGasExpr "gas_used") line then
    subGasExpr (lc "gas_used") false line
  else line

/-- Lines 94-98 of fix_txresponse.py: insert the data default after a
line matching the code anchor, unless the flag is already set. -/
def stepData (line : Line) (acc : List Line) (hd : Bool) : List Line × Bool :=
  if !hd && reSearch patCode line then
    (acc ++ [get_indent line ++ lc "data: vec![],"], true)
  else (acc, hd)

/-- Lines 100-104: insert the info default after a line matching the log
anchor, unless the flag is already set. -/
def stepInfo (line : Line) (acc : List Line) (hi : Bool) : List Line × Bool :=
  if !hi && reSearch (patFieldComma "log") line then
    (acc ++ [get_indent line ++ lc "info: String::new(),"], true)
  else (acc, hi)

/-- Lines 106-117: insert the codespace default after a line matching the
events anchor when the next original line opens with a closing brace,
first replacing the last accumulated line by the right-stripped events
line plus a comma when it does not already end with one. -/
def stepCodespace (txAll : List Line) (i : Nat) (line : Line)
    (acc : List Line) (hc : Bool) : List Line × Bool :=
  if !hc && reSearch (patFieldComma "events") line then
    match txAll.get? (i+1) with
    | some nxt =>
      if listStarts (lc "\x7d") (pyStrip nxt)
          || listStarts (lc "\x7d)") (pyStrip nxt) then
        let acc :=
          if !(pyEndsWith (lc ",") (pyRstrip line)) then
            acc.dropLast ++ [pyRstrip line ++ [',']]
          else acc
        (acc ++ [get_indent line ++ lc "codespace: String::new(),"], true)
      else (acc, hc)
    | none => (acc, hc)
  else (acc, hc)

/-- One iteration of the loop of lines 78-117 of fix_txresponse.py: the
gas rewrite of the current line, its append, and the three conditional
insertions, acting on the accumulated output and the presence flags.
txAll and i are only read to inspect the following original line in the
codespace step. -/
def fixFieldsStep (txAll : List Line) (i : Nat) (l : Line)
    (acc : List Line) (hd hi hc : Bool) : List Line × Bool × Bool × Bool :=
  let line := gasFixLine l
  let st1 := stepData line (acc ++ [line]) hd
  let st2 := stepInfo line st1.1 hi
  let st3 := stepCodespace txAll i line st2.1 hc
  (st3.1, st1.2, st2.2, st3.2)

/-- Lines 78-118 of fix_txresponse.py: the pass over the collected block. -/
def fixFieldsGo (txAll : List Line) :
    Nat → List Line → List Line → Bool → Bool → Bool → List Line
  | _, [], acc, _, _, _ => acc
  | i, l :: rest, acc, hd, hi, hc =>
    let st := fixFieldsStep txAll i l acc hd hi hc
    fixFieldsGo txAll (i+1) rest st.1 st.2.1 st.2.2.1 st.2.2.2

/-- fix_txresponse_fields (fix_txresponse.py lines 60-119). -/
def fix_txresponse_fields (tx : List Line) : List Line :=
  let fullText := pyJoin '\n' tx
  fixFieldsGo tx 0 tx []
    (reSearch (patPresence "data") fullText)
    (reSearch (patPresence "info") fullText)
    (reSearch (patPresence "codespace") fullText)

/-!
## The scanning loops of fix_txresponse.py
-/

/-- The block opener marker. -/
def opener : Line := lc "TxResponse \x7b"

/-- Lines 30-41 of fix_txresponse.py: collect lines from index j while the
running brace count stays positive, the count adding the opening braces
and subtracting the closing braces of each consumed line.  Returns the
collected lines, the final index and the final count.  The fuel is
instantiated with the number of lines left, so it never reaches zero
while the loop condition of the source still holds. -/
def collectGo (lines : List Line) : Nat → Nat → Int → List Line → List Line × Nat × Int
  | 0, j, brace, acc => (acc, j, brace)
  | fuel+1, j, brace, acc =>
    if j < lines.length ∧ 0 < brace then
      let cur := lines.getD j []
      collectGo lines fuel (j+1)
        (brace + (countChar '\x7b' cur : Int) - (countChar '\x7d' cur : Int))
        (acc ++ [cur])
    else (acc, j, brace)

/-- Lines 49-51 of fix_txresponse.py: assign the fixed lines over the
original line list starting at index idx, skipping assignments whose
index falls beyond the end of the list. -/
def writeBack : List Line → Nat → List Line → List Line
  | lines, _, [] => lines
  | lines, idx, f :: fs =>
    writeBack (if idx < lines.length then lines.set idx f else lines) (idx+1) fs

/-- Lines 24-56 of fix_txresponse.py: the scan over the line list.  On an
opener line the block is collected, fixed, and written back in place when
the fix changed it; the cursor then jumps past the collected block. -/
def contentLoopGo : Nat → List Line → Nat → Bool → List Line × Bool
  | 0, lines, _, modified => (lines, modified)
  | fuel+1, lines, i, modified =>
    if i < lines.length then
      let line := lines.getD i []
      if containsSub opener line then
        let r := collectGo lines (lines.length - (i+1)) (i+1) 1 [line]
        let tx := r.1
        let j := r.2.1
        let fixedL := fix_txresponse_fields tx
        if fixedL ≠ tx then
          contentLoopGo fuel (writeBack lines i fixedL) j true
        else
          contentLoopGo fuel lines j modified
      else
        contentLoopGo fuel lines (i+1) modified
    else (lines, modified)

/-- fix_txresponse_in_content (fix_txresponse.py lines 16-58).  The source
computes the start index as start_line - 1; its callers pass
start_line = 670. -/
def fix_txresponse_in_content (content : Line) (start_line : Nat) : Line × Bool :=
  let lines := pySplit '\n' content
  let r := contentLoopGo lines.length lines (start_line - 1) false
  (pyJoin '\n' r.1, r.2)

/-- Specification instrument for the frame property: the list of
(start, end) index ranges of the blocks located by the scan, produced by
the same recursion as contentLoopGo. -/
def contentSpansGo : Nat → List Line → Nat → List (Nat × Nat)
  | 0, _, _ => []
  | fuel+1, lines, i =>
    if i < lines.length then
      let line := lines.getD i []
      if containsSub opener line then
        let r := collectGo lines (lines.length - (i+1)) (i+1) 1 [line]
        let tx := r.1
        let j := r.2.1
        let fixedL := fix_txresponse_fields tx
        (i, j) ::
          contentSpansGo fuel
            (if fixedL ≠ tx then writeBack lines i fixedL else lines) j
      else contentSpansGo fuel lines (i+1)
    else []

/-- Specification instrument: does every block located by the scan keep
its line count under fix_txresponse_fields? -/
def contentNoGrowthGo : Nat → List Line → Nat → Bool
  | 0, _, _ => true
  | fuel+1, lines, i =>
    if i < lines.length then
      let line := lines.getD i []
      if containsSub opener line then
        let r := collectGo lines (lines.length - (i+1)) (i+1) 1 [line]
        let tx := r.1
        let j := r.2.1
        let fixedL := fix_txresponse_fields tx
        (fixedL.length == tx.length) &&
          contentNoGrowthGo fuel
            (if fixedL ≠ tx then writeBack lines i fixedL else lines) j
      else contentNoGrowthGo fuel lines (i+1)
    else true

/-!
## fix_all_txresponse.py
-/

/-- Lines 55-58 and 62-65 of fix_all_txresponse.py: append the annotation,
before the trailing comma of the right-stripped line when there is one. -/
def asI64Line (tx : Line) : Line :=
  if pyEndsWith (lc ",") (pyRstrip tx) then
    (pyRstrip tx).dropLast ++ lc " as i64,"
  else pyRstrip tx ++ lc " as i64"

/-- The indent used by fix_all_txresponse.py (lines 44, 50, 70): that many
space characters, whatever the original indent characters were. -/
def spacesIndent (l : Line) : Line :=
  List.replicate (l.length - (pyLstrip l).length) ' '

/-- Lines 19-76 of fix_all_txresponse.py: the block loop.  Per line it
first updates the brace count and the three presence flags, then runs the
branch chain inserting missing fields or annotating the gas fields. -/
def fixAllBlockGo (lines : List Line) :
    Nat → Nat → Int → List Line → Bool → Bool → Bool → List Line × Nat
  | 0, j, _, acc, _, _, _ => (acc, j)
  | fuel+1, j, brace, acc, hd, hi, hc =>
    if j < lines.length ∧ 0 < brace then
      let tx := lines.getD j []
      let brace := brace + (countChar '\x7b' tx : Int) - (countChar '\x7d' tx : Int)
      let hd := hd || containsSub (lc "data:") tx
      let hi := hi || containsSub (lc "info:") tx
      let hc := hc || containsSub (lc "codespace:") tx
      if containsSub (lc "code:") tx && !hd then
        fixAllBlockGo lines fuel (j+1) brace
          (acc ++ [tx, spacesIndent tx ++ lc "data: vec![],"]) true hi hc
      else if containsSub (lc "log:") tx && !hi then
        fixAllBlockGo lines fuel (j+1) brace
          (acc ++ [tx, spacesIndent tx ++ lc "info: String::new(),"]) hd true hc
      else if containsSub (lc "gas_wanted:") tx && !containsSub (lc " as i64") tx then
        fixAllBlockGo lines fuel (j+1) brace (acc ++ [asI64Line tx]) hd hi hc
      else if containsSub (lc "gas_used:") tx && !containsSub (lc " as i64") tx then
        fixAllBlockGo lines fuel (j+1) brace (acc ++ [asI64Line tx]) hd hi hc
      else if containsSub (lc "events:") tx && !hc && brace = 1 then
        fixAllBlockGo lines fuel (j+1) brace
          (acc ++ [tx, spacesIndent tx ++ lc "codespace: String::new(),"]) hd hi true
      else
        fixAllBlockGo lines fuel (j+1) brace (acc ++ [tx]) hd hi hc
    else (acc, j)

/-- Lines 13-83 of fix_all_txresponse.py: the outer loop.  An opener line
starts a block only when its index is positive; the processed block lines
are appended with their first element dropped (the comment in the source
says the first line was already added, but it never was). -/
def fixAllGo : Nat → List Line → Nat → List Line → List Line
  | 0, _, _, acc => acc
  | fuel+1, lines, i, acc =>
    if i < lines.length then
      let line := lines.getD i []
      if containsSub opener line && decide (0 < i) then
        let r := fixAllBlockGo lines (lines.length - (i+1)) (i+1) 1 [line]
          false false false
        fixAllGo fuel lines r.2 (acc ++ r.1.drop 1)
      else fixAllGo fuel lines (i+1) (acc ++ [line])
    else acc

/-- The content transformation of fix_txresponse_in_file
(fix_all_txresponse.py lines 5-87); the file is rewritten with this
content unconditionally. -/
def fix_txresponse_in_file_content (content : Line) : Line :=
  let lines := pySplit '\n' content
  pyJoin '\n' (fixAllGo lines.length lines 0 [])

/-!
## The command-line entry points as pure functions

The file system is a partial map from path to content; a run result
records the exit code and the chronological list of writes.
-/

structure RunResult where
  exitCode : Nat
  writes : List (Line × Line)
deriving DecidableEq

/-- main of fix_txresponse.py (lines 125-156): usage check, existence
check, read, patch from line 670; on modification write the backup at the
path with the .backup suffix first and then overwrite the file. -/
def fix_main (fs : Line → Option Line) (argv : List Line) : RunResult :=
  if argv.length ≠ 2 then ⟨1, []⟩
  else
    let path := argv.getD 1 []
    match fs path with
    | none => ⟨1, []⟩
    | some content =>
      let r := fix_txresponse_in_content content 670
      if r.2 then ⟨0, [(path ++ lc ".backup", content), (path, r.1)]⟩
      else ⟨0, []⟩

/-- Python str.replace for nonempty patterns: replace each non-overlapping
leftmost occurrence. -/
def pyReplaceGo (old new : Line) : Nat → Line → Line
  | 0, s => s
  | fuel+1, s =>
    match s with
    | [] => []
    | c :: t =>
      if old ≠ [] && listStarts old s then
        new ++ pyReplaceGo old new fuel (s.drop old.length)
      else c :: pyReplaceGo old new fuel t

def pyReplace (old new s : Line) : Line := pyReplaceGo old new s.length s

/-- main plus generate_claude_md of scripts/generate-claude-md.py (lines
40-89): usage check, stage normalisation and validation, the three reads
(template, common fragment, stage fragment) each exiting nonzero when the
file is absent, the two placeholder substitutions, and the single write.
root stands for the directory above the script directory. -/
def generate_claude_md_run (fs : Line → Option Line) (root : Line)
    (argv : List Line) : RunResult :=
  if argv.length ≠ 2 then ⟨1, []⟩
  else
    let stage := pyStrip (pyLower (argv.getD 1 []))
    if stage.length > 10 then ⟨1, []⟩
    else if stage ≠ lc "tick" ∧ stage ≠ lc "tock" then ⟨1, []⟩
    else if [lc "/", lc "\\", lc "..", lc "~"].any
        (fun t => containsSub t stage) then ⟨1, []⟩
    else
      match fs (root ++ lc "/CLAUDE.md.template") with
      | none => ⟨1, []⟩
      | some tmpl =>
        match fs (root ++ lc "/tick-tock-content/common-content.md") with
        | none => ⟨1, []⟩
        | some common =>
          match fs (root ++ lc "/tick-tock-content/" ++ stage ++ lc "-content.md") with
          | none => ⟨1, []⟩
          | some stageContent =>
            let result := pyReplace (lc "\x7b\x7bSTAGE_CONTENT\x7d\x7d") stageContent
              (pyReplace (lc "\x7b\x7bCOMMON_CONTENT\x7d\x7d") common tmpl)
            ⟨0, [(root ++ lc "/CLAUDE.md", result)]⟩

/-!
## Claim-level definitions
-/

/-- The located block spans of a run of fix_txresponse_in_content. -/
def contentSpans (content : Line) (start_line : Nat) : List (Nat × Nat) :=
  let lines := pySplit '\n' content
  contentSpansGo lines.length lines (start_line - 1)

/-- Does every block located in a run of fix_txresponse_in_content keep its
line count under the field fixer? -/
def contentNoGrowth (content : Line) (start_line : Nat) : Bool :=
  let lines := pySplit '\n' content
  contentNoGrowthGo lines.length lines (start_line - 1)

/-- Number of lines of a buffer, as Python split computes it. -/
def countLines (content : Line) : Nat := (pySplit '\n' content).length

/-- The example block of the specification: every field on its own line
and no trailing comma after the events value, exactly as written there. -/
def exampleBlock : List Line :=
  [lc "TxResponse \x7b", lc "    code: 0,", lc "    log: \"ok\",",
   lc "    gas_wanted: 100,", lc "    gas_used: 50,", lc "    events: vec![]",
   lc "\x7d"]

/-- The same block with a trailing comma on the events line. -/
def exampleBlockComma : List Line :=
  [lc "TxResponse \x7b", lc "    code: 0,", lc "    log: \"ok\",",
   lc "    gas_wanted: 100,", lc "    gas_used: 50,", lc "    events: vec![],",
   lc "\x7d"]

set_option maxRecDepth 100000

def c5Fs (p : Line) : Option Line :=
  if p = lc "app.rs" then
    some (pyJoin '\n' (List.replicate 669 [] ++
      [lc "TxResponse \x7b", lc "    gas_wanted: 100,", lc "\x7d"]))
  else none

def c6Fs (p : Line) : Option Line :=
  if p = lc "lib.rs" then some (lc "fn main() \x7b\x7d\nlet x = 1;") else none

def c8Fs (p : Line) : Option Line :=
  if p = lc "/repo/tick-tock-content/common-content.md" then some (lc "c")
  else none

/-!
## Lemmas
-/

-- Basic facts about the split / join pair.

theorem pySplit_ne_nil (sep : Char) (l : Line) : pySplit sep l ≠ [] := by
  induction l with
  | nil => simp [pySplit]
  | cons c rest ih =>
    simp only [pySplit]
    split
    · simp
    · cases h : pySplit sep rest with
      | nil => simp
      | cons h t => simp

theorem pyJoin_pySplit (sep : Char) (l : Line) :
    pyJoin sep (pySplit sep l) = l := by
  induction l with
  | nil => simp [pySplit, pyJoin]
  | cons c rest ih =>
    simp only [pySplit]
    split
    · rename_i hc
      cases h : pySplit sep rest with
      | nil => exact absurd h (pySplit_ne_nil sep rest)
      | cons p ps =>
        rw [h] at ih
        subst hc
        cases ps with
        | nil => simp [pyJoin] at ih ⊢; simp [ih]
        | cons q qs => simp [pyJoin] at ih ⊢; simp [ih]
    · cases h : pySplit sep rest with
      | nil => exact absurd h (pySplit_ne_nil sep rest)
      | cons p ps =>
        rw [h] at ih
        cases ps with
        | nil => simpa [pyJoin] using congrArg (c :: ·) ih
        | cons q qs => simpa [pyJoin] using congrArg (c :: ·) ih

/-- Every piece produced by pySplit is free of the separator. -/
theorem pySplit_no_sep (sep : Char) (l : Line) :
    ∀ x ∈ pySplit sep l, sep ∉ x := by
  induction l with
  | nil => simp [pySplit]
  | cons c rest ih =>
    simp only [pySplit]
    split
    · intro x hx
      rcases List.mem_cons.1 hx with h | h
      · subst h; simp
      · exact ih x h
    · rename_i hc
      cases h : pySplit sep rest with
      | nil => exact absurd h (pySplit_ne_nil sep rest)
      | cons p ps =>
        rw [h] at ih
        intro x hx
        rcases List.mem_cons.1 hx with h1 | h1
        · subst h1
          intro hmem
          rcases List.mem_cons.1 hmem with h2 | h2
          · exact hc h2.symm
          · exact ih p (List.mem_cons_self p ps) h2
        · exact ih x (List.mem_cons_of_mem p h1)

/-- The number of pieces is the separator count plus one. -/
theorem pySplit_length (sep : Char) (l : Line) :
    (pySplit sep l).length = countChar sep l + 1 := by
  induction l with
  | nil => simp [pySplit, countChar]
  | cons c rest ih =>
    simp only [pySplit]
    split
    · rename_i hc
      simp [countChar, List.filter, hc, List.length_cons] at ih ⊢
      omega
    · rename_i hc
      cases h : pySplit sep rest with
      | nil => exact absurd h (pySplit_ne_nil sep rest)
      | cons p ps =>
        rw [h] at ih
        have hcc : ¬ (c = sep) := fun hh => hc hh
        simp [countChar, List.filter, hcc] at ih ⊢
        simpa [countChar] using ih

/-- Joining separator-free pieces yields a separator count of one less than
the number of pieces. -/
theorem countChar_pyJoin (sep : Char) (ls : List Line)
    (h : ∀ x ∈ ls, sep ∉ x) (hne : ls ≠ []) :
    countChar sep (pyJoin sep ls) = ls.length - 1 := by
  induction ls with
  | nil => simp at hne
  | cons p ps ih =>
    cases ps with
    | nil =>
      have hp := h p (List.mem_cons_self p [])
      simp [pyJoin, countChar]
      intro x hx hxs
      exact absurd (hxs ▸ hx) hp
    | cons q qs =>
      have hp := h p (List.mem_cons_self p (q :: qs))
      have ihq := ih (fun x hx => h x (List.mem_cons_of_mem p hx)) (by simp)
      simp only [pyJoin, countChar] at ihq ⊢
      rw [List.filter_append]
      have h1 : p.filter (fun x => decide (x = sep)) = [] := by
        apply List.filter_eq_nil_iff.2
        intro a ha
        simp
        intro hassume
        exact hp (hassume ▸ ha)
      rw [h1]
      simp [List.filter]
      simpa [countChar] using ihq

/-!
## Lemmas about the collection loop and the in-place write-back
-/

theorem collectGo_j_ge (lines : List Line) (fuel j : Nat) (brace : Int)
    (acc : List Line) : j ≤ (collectGo lines fuel j brace acc).2.1 := by
  induction fuel generalizing j brace acc with
  | zero => simp [collectGo]
  | succ fuel ih =>
    simp only [collectGo]
    split
    · exact Nat.le_trans (Nat.le_succ j) (ih (j+1) _ _)
    · exact Nat.le_refl j

theorem collectGo_j_le (lines : List Line) (fuel j : Nat) (brace : Int)
    (acc : List Line) (h : j ≤ lines.length) :
    (collectGo lines fuel j brace acc).2.1 ≤ lines.length := by
  induction fuel generalizing j brace acc with
  | zero => simpa [collectGo] using h
  | succ fuel ih =>
    simp only [collectGo]
    split
    · rename_i hcond
      exact ih (j+1) _ _ hcond.1
    · exact h

theorem collectGo_length (lines : List Line) (fuel j : Nat) (brace : Int)
    (acc : List Line) :
    (collectGo lines fuel j brace acc).1.length =
      acc.length + ((collectGo lines fuel j brace acc).2.1 - j) := by
  induction fuel generalizing j brace acc with
  | zero => simp [collectGo]
  | succ fuel ih =>
    simp only [collectGo]
    split
    · have hge := collectGo_j_ge lines fuel (j+1)
        (brace + (countChar '\x7b' (lines.getD j []) : Int)
          - (countChar '\x7d' (lines.getD j []) : Int)) (acc ++ [lines.getD j []])
      rw [ih]
      simp only [List.length_append, List.length_cons, List.length_nil]
      omega
    · simp

/-- When the final brace count is still positive, the collection ran to the
end of the line list. -/
theorem collectGo_unterminated (lines : List Line) (fuel j : Nat)
    (brace : Int) (acc : List Line) (hfuel : lines.length - j ≤ fuel)
    (hpos : 0 < (collectGo lines fuel j brace acc).2.2) :
    lines.length ≤ (collectGo lines fuel j brace acc).2.1 := by
  induction fuel generalizing j brace acc with
  | zero =>
    simp only [collectGo] at hpos ⊢
    omega
  | succ fuel ih =>
    simp only [collectGo] at hpos ⊢
    split at hpos <;> rename_i hcond
    · rw [if_pos hcond]
      exact ih (j+1) _ _ (by omega) hpos
    · rw [if_neg hcond]
      push_neg at hcond
      simp only at hpos
      by_cases hj : j < lines.length
      · have := hcond hj; omega
      · simp only
        omega

/-- Every collected line is either in the accumulator or a line of the
buffer. -/
theorem collectGo_mem (lines : List Line) (fuel j : Nat) (brace : Int)
    (acc : List Line) :
    ∀ x ∈ (collectGo lines fuel j brace acc).1, x ∈ acc ∨ x ∈ lines := by
  induction fuel generalizing j brace acc with
  | zero => intro x hx; exact Or.inl (by simpa [collectGo] using hx)
  | succ fuel ih =>
    intro x hx
    simp only [collectGo] at hx
    split at hx
    · rename_i hcond
      rcases ih (j+1) _ _ x hx with h | h
      · rcases List.mem_append.1 h with h1 | h1
        · exact Or.inl h1
        · refine Or.inr ?_
          have : lines.getD j [] ∈ lines := by
            have hj : j < lines.length := hcond.1
            simp only [List.getD_eq_getElem?_getD, List.getElem?_eq_getElem hj]
            exact List.getElem_mem hj
          simpa using (List.mem_singleton.1 h1) ▸ this
      · exact Or.inr h
    · exact Or.inl hx

theorem writeBack_length (lines : List Line) (idx : Nat) (fs : List Line) :
    (writeBack lines idx fs).length = lines.length := by
  induction fs generalizing lines idx with
  | nil => simp [writeBack]
  | cons f fs ih =>
    simp only [writeBack]
    rw [ih]
    split <;> simp

/-- Entries before the write start or at or past the write end are
untouched. -/
theorem writeBack_getElem?_outside (lines : List Line) (idx : Nat)
    (fs : List Line) (k : Nat) (h : k < idx ∨ idx + fs.length ≤ k) :
    (writeBack lines idx fs)[k]? = lines[k]? := by
  induction fs generalizing lines idx with
  | nil => simp [writeBack]
  | cons f fs ih =>
    simp only [writeBack]
    have hk : k ≠ idx := by
      rcases h with h | h
      · omega
      · simp only [List.length_cons] at h; omega
    rw [ih]
    · split
      · exact List.getElem?_set_ne (fun hh => hk hh.symm)
      · rfl
    · rcases h with h | h
      · exact Or.inl (by omega)
      · simp only [List.length_cons] at h
        exact Or.inr (by omega)

theorem writeBack_mem (lines : List Line) (idx : Nat) (fs : List Line) :
    ∀ x ∈ writeBack lines idx fs, x ∈ lines ∨ x ∈ fs := by
  induction fs generalizing lines idx with
  | nil => intro x hx; exact Or.inl (by simpa [writeBack] using hx)
  | cons f fs ih =>
    intro x hx
    simp only [writeBack] at hx
    rcases ih _ _ x hx with h | h
    · split at h
      · rcases List.mem_or_eq_of_mem_set h with h1 | h1
        · exact Or.inl h1
        · exact Or.inr (by simp [h1])
      · exact Or.inl h
    · exact Or.inr (List.mem_cons_of_mem f h)

/-!
## The rewritten lines contain no newline character

Every line the field fixer emits is assembled from pieces of input lines
and from constant fragments, none of which contain a newline; this is what
lets the line count of the output buffer be read off from the line list.
-/

theorem noNL_subset {l m : Line} (h : m ⊆ l) (hl : '\n' ∉ l) : '\n' ∉ m :=
  fun hm => hl (h hm)

theorem noNL_append {l m : Line} (hl : '\n' ∉ l) (hm : '\n' ∉ m) :
    '\n' ∉ l ++ m := by
  simp only [List.mem_append]
  exact fun h => h.elim hl hm

theorem pyRstrip_subset (l : Line) : pyRstrip l ⊆ l := by
  intro x hx
  simp only [pyRstrip, List.mem_reverse] at hx
  exact List.mem_reverse.1 ((List.dropWhile_sublist pyIsSpace).subset hx)

theorem gasNumHere_noNL (name : Line) (prev : Option Char) (s : Line)
    (hname : '\n' ∉ name) (hs : '\n' ∉ s) (m rest : Line)
    (h : gasNumHere name prev s = some (m, rest)) : '\n' ∉ m ∧ '\n' ∉ rest := by
  have hs1 : '\n' ∉ s.drop name.length := noNL_subset (List.drop_subset _ _) hs
  simp only [gasNumHere] at h
  split at h
  · split at h
    · rename_i s3 heq
      have hs3 : '\n' ∉ (':' :: s3 : Line) := by
        rw [← heq]
        exact noNL_subset (List.dropWhile_sublist pyIsSpace).subset hs1
      have hs3' : '\n' ∉ s3 := fun hx => hs3 (List.mem_cons_of_mem _ hx)
      have hs4 : '\n' ∉ s3.dropWhile pyIsSpace :=
        noNL_subset (List.dropWhile_sublist pyIsSpace).subset hs3'
      split at h
      · exact absurd h (by simp)
      · rw [Option.some.injEq, Prod.mk.injEq] at h
        obtain ⟨h1, h2⟩ := h
        subst h1; subst h2
        constructor
        · refine noNL_append (noNL_append hname
            (noNL_subset (List.takeWhile_sublist pyIsSpace).subset hs1)) ?_
          intro hx
          rcases List.mem_cons.1 hx with h3 | h3
          · exact absurd h3.symm (by decide)
          · rcases List.mem_append.1 h3 with h4 | h4
            · exact noNL_subset (List.takeWhile_sublist pyIsSpace).subset hs3' h4
            · exact noNL_subset (List.takeWhile_sublist Char.isDigit).subset hs4 h4
        · exact noNL_subset (List.dropWhile_sublist Char.isDigit).subset hs4
    · exact absurd h (by simp)
  · exact absurd h (by simp)

theorem gasExprHere_noNL (name : Line) (prev : Option Char) (s : Line)
    (hname : '\n' ∉ name) (hs : '\n' ∉ s) (g1 g2 rest : Line)
    (h : gasExprHere name prev s = some (g1, g2, rest)) :
    '\n' ∉ g1 ∧ '\n' ∉ g2 ∧ '\n' ∉ rest := by
  have hs1 : '\n' ∉ s.drop name.length := noNL_subset (List.drop_subset _ _) hs
  simp only [gasExprHere] at h
  split at h
  · split at h
    · rename_i s3 heq
      have hs3 : '\n' ∉ (':' :: s3 : Line) := by
        rw [← heq]
        exact noNL_subset (List.dropWhile_sublist pyIsSpace).subset hs1
      have hs3' : '\n' ∉ s3 := fun hx => hs3 (List.mem_cons_of_mem _ hx)
      have hw2 : '\n' ∉ s3.takeWhile pyIsSpace :=
        noNL_subset (List.takeWhile_sublist pyIsSpace).subset hs3'
      have hs4 : '\n' ∉ s3.dropWhile pyIsSpace :=
        noNL_subset (List.dropWhile_sublist pyIsSpace).subset hs3'
      have hw1 : '\n' ∉ (s.drop name.length).takeWhile pyIsSpace :=
        noNL_subset (List.takeWhile_sublist pyIsSpace).subset hs1
      split at h
      · split at h
        · rename_i lw hlw
          rw [Option.some.injEq, Prod.mk.injEq, Prod.mk.injEq] at h
          obtain ⟨h1, h2, h3⟩ := h
          subst h1; subst h2; subst h3
          refine ⟨noNL_append (noNL_append hname hw1) ?_, ?_, hs4⟩
          · intro hx
            rcases List.mem_cons.1 hx with h4 | h4
            · exact absurd h4.symm (by decide)
            · exact noNL_subset (List.dropLast_subset _) hw2 h4
          · intro hx
            have := List.mem_singleton.1 hx
            exact hw2 (this ▸ List.mem_of_getLast?_eq_some hlw)
        · exact absurd h (by simp)
      · rw [Option.some.injEq, Prod.mk.injEq, Prod.mk.injEq] at h
        obtain ⟨h1, h2, h3⟩ := h
        subst h1; subst h2; subst h3
        refine ⟨noNL_append (noNL_append hname hw1) ?_,
          noNL_subset (List.takeWhile_sublist _).subset hs4,
          noNL_subset (List.dropWhile_sublist _).subset hs4⟩
        intro hx
        rcases List.mem_cons.1 hx with h4 | h4
        · exact absurd h4.symm (by decide)
        · exact hw2 h4
    · exact absurd h (by simp)
  · exact absurd h (by simp)

theorem subGasNumGo_noNL (name : Line) (hname : '\n' ∉ name) :
    ∀ (fuel : Nat) (prev : Option Char) (s : Line), '\n' ∉ s →
      '\n' ∉ subGasNumGo name fuel prev s := by
  intro fuel
  induction fuel with
  | zero => intro prev s hs; simpa [subGasNumGo] using hs
  | succ fuel ih =>
    intro prev s hs
    simp only [subGasNumGo]
    match s, hs with
    | [], _ => simp
    | c :: t, hs =>
      have hc : ¬ (c = '\n') := fun hh => hs (hh ▸ List.mem_cons_self c t)
      have ht : '\n' ∉ t := fun hh => hs (List.mem_cons_of_mem c hh)
      cases hg : gasNumHere name prev (c :: t) with
      | none =>
        simp only [hg]
        intro hx
        rcases List.mem_cons.1 hx with h | h
        · exact hc h.symm
        · exact ih (some c) t ht h
      | some p =>
        obtain ⟨m, rest⟩ := p
        obtain ⟨hm, hrest⟩ := gasNumHere_noNL name prev (c :: t) hname hs m rest hg
        simp only [hg]
        exact noNL_append (noNL_append hm (by decide)) (ih m.getLast? rest hrest)

theorem subGasExprGo_noNL (name : Line) (wrap : Bool) (hname : '\n' ∉ name) :
    ∀ (fuel : Nat) (prev : Option Char) (s : Line), '\n' ∉ s →
      '\n' ∉ subGasExprGo name wrap fuel prev s := by
  intro fuel
  induction fuel with
  | zero => intro prev s hs; simpa [subGasExprGo] using hs
  | succ fuel ih =>
    intro prev s hs
    simp only [subGasExprGo]
    match s, hs with
    | [], _ => simp
    | c :: t, hs =>
      have hc : ¬ (c = '\n') := fun hh => hs (hh ▸ List.mem_cons_self c t)
      have ht : '\n' ∉ t := fun hh => hs (List.mem_cons_of_mem c hh)
      cases hg : gasExprHere name prev (c :: t) with
      | none =>
        simp only [hg]
        intro hx
        rcases List.mem_cons.1 hx with h | h
        · exact hc h.symm
        · exact ih (some c) t ht h
      | some p =>
        obtain ⟨g1, g2, rest⟩ := p
        obtain ⟨h1, h2, h3⟩ := gasExprHere_noNL name prev (c :: t) hname hs g1 g2 rest hg
        simp only [hg]
        refine noNL_append ?_ (ih g2.getLast? rest h3)
        cases wrap with
        | true =>
          rw [if_pos rfl]
          refine noNL_append h1 ?_
          intro hx
          rcases List.mem_cons.1 hx with h4 | h4
          · exact absurd h4.symm (by decide)
          · rcases List.mem_append.1 h4 with h5 | h5
            · exact h2 h5
            · exact absurd h5 (by decide)
        | false =>
          rw [if_neg (by simp)]
          exact noNL_append (noNL_append h1 h2) (by decide)

theorem gasFixLine_noNL (line : Line) (h : '\n' ∉ line) :
    '\n' ∉ gasFixLine line := by
  simp only [gasFixLine]
  have hn1 : '\n' ∉ lc "gas_wanted" := by decide
  have hn2 : '\n' ∉ lc "gas_used" := by decide
  split
  · split
    · exact subGasNumGo_noNL _ hn2 _ _ _ (subGasNumGo_noNL _ hn1 _ _ _ h)
    · split
      · exact subGasExprGo_noNL _ _ hn2 _ _ _ (subGasNumGo_noNL _ hn1 _ _ _ h)
      · exact subGasNumGo_noNL _ hn1 _ _ _ h
  · split
    · split
      · exact subGasNumGo_noNL _ hn2 _ _ _ (subGasExprGo_noNL _ _ hn1 _ _ _ h)
      · split
        · exact subGasExprGo_noNL _ _ hn2 _ _ _ (subGasExprGo_noNL _ _ hn1 _ _ _ h)
        · exact subGasExprGo_noNL _ _ hn1 _ _ _ h
    · split
      · exact subGasNumGo_noNL _ hn2 _ _ _ h
      · split
        · exact subGasExprGo_noNL _ _ hn2 _ _ _ h
        · exact h

theorem noNLs_append_one {ls : List Line} {t : Line}
    (hls : ∀ x ∈ ls, '\n' ∉ x) (ht : '\n' ∉ t) :
    ∀ x ∈ ls ++ [t], '\n' ∉ x := by
  intro x hx
  rcases List.mem_append.1 hx with h | h
  · exact hls x h
  · exact (List.mem_singleton.1 h) ▸ ht

theorem stepData_noNL (line : Line) (acc : List Line) (hd : Bool)
    (hline : '\n' ∉ line) (hacc : ∀ x ∈ acc, '\n' ∉ x) :
    ∀ x ∈ (stepData line acc hd).1, '\n' ∉ x := by
  simp only [stepData]
  split
  · exact noNLs_append_one hacc
      (noNL_append (noNL_subset (List.takeWhile_sublist pyIsSpace).subset hline)
        (by decide))
  · exact hacc

theorem stepInfo_noNL (line : Line) (acc : List Line) (hi : Bool)
    (hline : '\n' ∉ line) (hacc : ∀ x ∈ acc, '\n' ∉ x) :
    ∀ x ∈ (stepInfo line acc hi).1, '\n' ∉ x := by
  simp only [stepInfo]
  split
  · exact noNLs_append_one hacc
      (noNL_append (noNL_subset (List.takeWhile_sublist pyIsSpace).subset hline)
        (by decide))
  · exact hacc

theorem stepCodespace_noNL (txAll : List Line) (i : Nat) (line : Line)
    (acc : List Line) (hc : Bool)
    (hline : '\n' ∉ line) (hacc : ∀ x ∈ acc, '\n' ∉ x) :
    ∀ x ∈ (stepCodespace txAll i line acc hc).1, '\n' ∉ x := by
  have hins : '\n' ∉ get_indent line ++ lc "codespace: String::new()," :=
    noNL_append (noNL_subset (List.takeWhile_sublist pyIsSpace).subset hline)
      (by decide)
  have hcomma : '\n' ∉ pyRstrip line ++ [','] := by
    refine noNL_append (noNL_subset (pyRstrip_subset line) hline) ?_
    intro hx
    exact absurd (List.mem_singleton.1 hx).symm (by decide)
  simp only [stepCodespace]
  split
  · split
    · split
      · split
        · refine noNLs_append_one (noNLs_append_one ?_ hcomma) hins
          exact fun x hx => hacc x (List.dropLast_subset _ hx)
        · exact noNLs_append_one hacc hins
      · exact hacc
    · exact hacc
  · exact hacc

theorem fixFieldsStep_noNL (txAll : List Line) (i : Nat) (l : Line)
    (acc : List Line) (hd hi hc : Bool) (hl : '\n' ∉ l)
    (hacc : ∀ x ∈ acc, '\n' ∉ x) :
    ∀ x ∈ (fixFieldsStep txAll i l acc hd hi hc).1, '\n' ∉ x := by
  have hline : '\n' ∉ gasFixLine l := gasFixLine_noNL l hl
  simp only [fixFieldsStep]
  exact stepCodespace_noNL txAll i _ _ hc hline
    (stepInfo_noNL _ _ hi hline
      (stepData_noNL _ _ hd hline (noNLs_append_one hacc hline)))

theorem fixFieldsGo_noNL (txAll : List Line) (rem : List Line) :
    ∀ (i : Nat) (acc : List Line) (hd hi hc : Bool),
      (∀ x ∈ rem, '\n' ∉ x) → (∀ x ∈ acc, '\n' ∉ x) →
      ∀ x ∈ fixFieldsGo txAll i rem acc hd hi hc, '\n' ∉ x := by
  induction rem with
  | nil =>
    intro i acc hd hi hc _ hacc x hx
    exact hacc x (by simpa [fixFieldsGo] using hx)
  | cons l rest ih =>
    intro i acc hd hi hc hrem hacc x hx
    simp only [fixFieldsGo] at hx
    exact ih (i+1) _ _ _ _
      (fun y hy => hrem y (List.mem_cons_of_mem l hy))
      (fixFieldsStep_noNL txAll i l acc hd hi hc
        (hrem l (List.mem_cons_self l rest)) hacc) x hx

theorem fix_txresponse_fields_noNL (tx : List Line)
    (h : ∀ x ∈ tx, '\n' ∉ x) :
    ∀ x ∈ fix_txresponse_fields tx, '\n' ∉ x := by
  simp only [fix_txresponse_fields]
  exact fixFieldsGo_noNL tx tx 0 [] _ _ _ h (by simp)

/-!
## Lemmas about the outer scan of fix_txresponse.py
-/

/-- The in-place write-back never changes the number of lines, so neither
does the scan. -/
theorem contentLoopGo_length (fuel : Nat) :
    ∀ (lines : List Line) (i : Nat) (m : Bool),
      (contentLoopGo fuel lines i m).1.length = lines.length := by
  induction fuel with
  | zero => intro lines i m; simp [contentLoopGo]
  | succ fuel ih =>
    intro lines i m
    simp only [contentLoopGo]
    split
    · split
      · split
        · rw [ih]; exact writeBack_length _ _ _
        · exact ih _ _ _
      · exact ih _ _ _
    · simp

/-- Every line of the scanned buffer stays free of newline characters. -/
theorem contentLoopGo_noNL (fuel : Nat) :
    ∀ (lines : List Line) (i : Nat) (m : Bool),
      (∀ x ∈ lines, '\n' ∉ x) →
      ∀ x ∈ (contentLoopGo fuel lines i m).1, '\n' ∉ x := by
  induction fuel with
  | zero => intro lines i m h; simpa [contentLoopGo] using h
  | succ fuel ih =>
    intro lines i m h
    simp only [contentLoopGo]
    split
    · split
      · split
        · refine ih _ _ _ ?_
          intro x hx
          rcases writeBack_mem _ _ _ x hx with h1 | h1
          · exact h x h1
          · refine fix_txresponse_fields_noNL _ ?_ x h1
            intro y hy
            rcases collectGo_mem _ _ _ _ _ y hy with h2 | h2
            · have := List.mem_singleton.1 h2
              subst this
              rename_i hlt _ _
              simp only [List.getD_eq_getElem?_getD, List.getElem?_eq_getElem hlt]
              exact h _ (List.getElem_mem hlt)
            · exact h y h2
        · exact ih _ _ _ h
      · exact ih _ _ _ h
    · simpa using h

/-- When no line of the buffer contains the opener marker, the scan is the
identity and reports no modification. -/
theorem contentLoopGo_no_opener (fuel : Nat) :
    ∀ (lines : List Line) (i : Nat) (m : Bool),
      (∀ x ∈ lines, containsSub opener x = false) →
      contentLoopGo fuel lines i m = (lines, m) := by
  induction fuel with
  | zero => intro lines i m _; simp [contentLoopGo]
  | succ fuel ih =>
    intro lines i m h
    simp only [contentLoopGo]
    split
    · rename_i hlt
      have hline : containsSub opener (lines.getD i []) = false := by
        simp only [List.getD_eq_getElem?_getD, List.getElem?_eq_getElem hlt]
        exact h _ (List.getElem_mem hlt)
      rw [hline]
      simp only [Bool.false_eq_true, if_neg, not_false_iff]
      exact ih _ _ _ h
    · rfl

/-- Once the cursor is at or past the end, the scan stops at once. -/
theorem contentLoopGo_of_le (fuel : Nat) (lines : List Line) (i : Nat)
    (m : Bool) (h : lines.length ≤ i) :
    contentLoopGo fuel lines i m = (lines, m) := by
  cases fuel with
  | zero => simp [contentLoopGo]
  | succ fuel =>
    simp only [contentLoopGo]
    rw [if_neg (by omega)]

/-- Frame property of the scan: as long as every located block keeps its
line count under the field fixer, all entries outside the located spans
are untouched. -/
theorem contentLoopGo_frame (fuel : Nat) :
    ∀ (lines : List Line) (i : Nat) (m : Bool) (k : Nat),
      contentNoGrowthGo fuel lines i = true →
      (∀ se ∈ contentSpansGo fuel lines i, k < se.1 ∨ se.2 ≤ k) →
      (contentLoopGo fuel lines i m).1[k]? = lines[k]? := by
  induction fuel with
  | zero => intro lines i m k _ _; simp [contentLoopGo]
  | succ fuel ih =>
    intro lines i m k hng hsp
    simp only [contentLoopGo, contentNoGrowthGo, contentSpansGo] at hng hsp ⊢
    by_cases hlt : i < lines.length
    · rw [if_pos hlt] at hng hsp ⊢
      by_cases hop : containsSub opener (lines.getD i []) = true
      · rw [if_pos hop] at hng hsp ⊢
        set r := collectGo lines (lines.length - (i + 1)) (i + 1) 1
          [lines.getD i []] with hr
        set fixedL := fix_txresponse_fields r.1 with hfx
        rw [Bool.and_eq_true] at hng
        obtain ⟨hlen, hng2⟩ := hng
        have hlen' : fixedL.length = r.1.length := by
          simpa using hlen
        have hj1 := collectGo_j_ge lines (lines.length - (i + 1)) (i+1) 1
          [lines.getD i []]
        rw [← hr] at hj1
        have htxlen := collectGo_length lines (lines.length - (i + 1)) (i+1) 1
          [lines.getD i []]
        rw [← hr] at htxlen
        simp only [List.length_cons, List.length_nil] at htxlen
        have hspan := hsp (i, r.2.1) (List.mem_cons_self _ _)
        have hsp2 : ∀ se ∈ contentSpansGo fuel
            (if fixedL ≠ r.1 then writeBack lines i fixedL else lines) r.2.1,
            k < se.1 ∨ se.2 ≤ k :=
          fun se hse => hsp se (List.mem_cons_of_mem _ hse)
        by_cases hne : fixedL ≠ r.1
        · rw [if_pos hne] at hng2 hsp2 ⊢
          rw [ih _ _ _ _ hng2 hsp2]
          refine writeBack_getElem?_outside lines i fixedL k ?_
          rcases hspan with h | h
          · exact Or.inl h
          · refine Or.inr ?_
            rw [hlen']
            omega
        · rw [if_neg hne] at hng2 hsp2 ⊢
          exact ih _ _ _ _ hng2 hsp2
      · rw [if_neg hop] at hng hsp ⊢
        exact ih _ _ _ _ hng hsp
    · rw [if_neg hlt]

/-- A separator-free string splits to a single piece. -/
theorem pySplit_of_no_sep (sep : Char) (l : Line) (h : sep ∉ l) :
    pySplit sep l = [l] := by
  induction l with
  | nil => simp [pySplit]
  | cons c rest ih =>
    have hc : ¬ (c = sep) := fun hh => h (hh ▸ List.mem_cons_self c rest)
    have hrest : sep ∉ rest := fun hh => h (List.mem_cons_of_mem c hh)
    simp only [pySplit, if_neg hc, ih hrest]

theorem pySplit_append_sep (sep : Char) (l t : Line) (h : sep ∉ l) :
    pySplit sep (l ++ sep :: t) = l :: pySplit sep t := by
  induction l with
  | nil => simp [pySplit]
  | cons c rest ih =>
    have hc : ¬ (c = sep) := fun hh => h (hh ▸ List.mem_cons_self c rest)
    have hrest : sep ∉ rest := fun hh => h (List.mem_cons_of_mem c hh)
    simp only [List.cons_append, pySplit, if_neg hc, List.append_eq]
    rw [ih hrest]

/-- Splitting the join of separator-free pieces recovers the pieces. -/
theorem pySplit_pyJoin (sep : Char) (ls : List Line)
    (h : ∀ x ∈ ls, sep ∉ x) (hne : ls ≠ []) :
    pySplit sep (pyJoin sep ls) = ls := by
  induction ls with
  | nil => simp at hne
  | cons p ps ih =>
    cases ps with
    | nil => simpa [pyJoin] using pySplit_of_no_sep sep p (h p (by simp))
    | cons q qs =>
      have hp := h p (List.mem_cons_self p (q :: qs))
      have := ih (fun x hx => h x (List.mem_cons_of_mem p hx)) (by simp)
      simp only [pyJoin]
      rw [pySplit_append_sep sep p _ hp, this]

/-- When no line from the cursor on carries the opener marker, the outer
loop of fix_all_txresponse.py copies the remaining lines verbatim. -/
theorem fixAllGo_copy (fuel : Nat) :
    ∀ (lines : List Line) (i : Nat) (acc : List Line),
      lines.length - i ≤ fuel →
      (∀ x ∈ lines.drop i, containsSub opener x = false) →
      fixAllGo fuel lines i acc = acc ++ lines.drop i := by
  induction fuel with
  | zero =>
    intro lines i acc hfuel h
    have hle : lines.length ≤ i := by omega
    simp [fixAllGo, List.drop_of_length_le hle]
  | succ fuel ih =>
    intro lines i acc hfuel h
    simp only [fixAllGo]
    split
    · rename_i hlt
      have hdrop : lines.drop i = lines[i] :: lines.drop (i+1) :=
        List.drop_eq_getElem_cons hlt
      have hget : lines.getD i [] = lines[i] := by
        simp [List.getD_eq_getElem?_getD, List.getElem?_eq_getElem hlt]
      have hline : containsSub opener (lines.getD i []) = false := by
        rw [hget]
        exact h _ (by rw [hdrop]; exact List.mem_cons_self _ _)
      rw [hline]
      simp only [Bool.false_and, Bool.false_eq_true, if_neg, not_false_iff,
        Bool.false_eq_true]
      rw [ih lines (i+1) (acc ++ [lines.getD i []]) (by omega)
        (fun x hx => h x (by rw [hdrop]; exact List.mem_cons_of_mem _ hx))]
      rw [hdrop, hget, List.append_assoc]
      rfl
    · rename_i hge
      have hle : lines.length ≤ i := by omega
      simp [List.drop_of_length_le hle]

/-!
## Claim C1
-/

/-- C1 counterexample: the claim that all text outside any located block is
unchanged is false for fix_txresponse_in_content.  On this buffer the
located block spans lines 0 to 2, yet line 3 (the text AFTER following the
closing line of the block) is overwritten by the closing brace that the
grown rewritten block pushes over it. -/
theorem C1_counterexample :
    fix_txresponse_in_content (lc "TxResponse \x7b\ncode: 0,\n\x7d\nAFTER") 1 =
      (lc "TxResponse \x7b\ncode: 0,\ndata: vec![],\n\x7d", true) ∧
    contentSpans (lc "TxResponse \x7b\ncode: 0,\n\x7d\nAFTER") 1 = [(0, 3)] ∧
    (pySplit '\n'
      (fix_txresponse_in_content (lc "TxResponse \x7b\ncode: 0,\n\x7d\nAFTER") 1).1)[3]?
      = some (lc "\x7d") ∧
    (pySplit '\n' (lc "TxResponse \x7b\ncode: 0,\n\x7d\nAFTER"))[3]? =
      some (lc "AFTER") := by
  exact ⟨by decide, by decide, by decide, by decide⟩

/-- C1 (amended): text outside any located block is unchanged between the
input and the output of fix_txresponse_in_content provided every located
block keeps its line count under the field fixer: line k of the output
equals line k of the input for every k outside all located spans.  Without
that proviso the claim fails, because a rewritten block that grew by the
inserted field lines overwrites the lines after the block in place. -/
theorem C1_frame_outside_blocks (content : Line) (start_line k : Nat)
    (hng : contentNoGrowth content start_line = true)
    (hout : ∀ se ∈ contentSpans content start_line, k < se.1 ∨ se.2 ≤ k) :
    (pySplit '\n' (fix_txresponse_in_content content start_line).1)[k]? =
      (pySplit '\n' content)[k]? := by
  simp only [contentNoGrowth] at hng
  simp only [contentSpans] at hout
  simp only [fix_txresponse_in_content]
  have hnn : ∀ x ∈ (contentLoopGo (pySplit '\n' content).length
      (pySplit '\n' content) (start_line - 1) false).1, '\n' ∉ x :=
    contentLoopGo_noNL _ _ _ _ (pySplit_no_sep '\n' content)
  have hlen := contentLoopGo_length (pySplit '\n' content).length
    (pySplit '\n' content) (start_line - 1) false
  have hne : (contentLoopGo (pySplit '\n' content).length
      (pySplit '\n' content) (start_line - 1) false).1 ≠ [] := by
    intro hnil
    rw [hnil] at hlen
    exact pySplit_ne_nil '\n' content (List.length_eq_zero.1 hlen.symm)
  rw [pySplit_pyJoin '\n' _ hnn hne]
  exact contentLoopGo_frame _ _ _ _ _ hng hout

/-- Witness for C1: a buffer whose single located block keeps its line
count; the line after the block is unchanged. -/
theorem C1_frame_outside_blocks_witness :
    contentNoGrowth (lc "before\nTxResponse \x7b\n\x7d\nafter") 1 = true ∧
    (∀ se ∈ contentSpans (lc "before\nTxResponse \x7b\n\x7d\nafter") 1,
      3 < se.1 ∨ se.2 ≤ 3) ∧
    (pySplit '\n'
      (fix_txresponse_in_content (lc "before\nTxResponse \x7b\n\x7d\nafter") 1).1)[3]?
      = (pySplit '\n' (lc "before\nTxResponse \x7b\n\x7d\nafter"))[3]? :=
  ⟨by decide, by decide,
    C1_frame_outside_blocks (lc "before\nTxResponse \x7b\n\x7d\nafter") 1 3
      (by decide) (by decide)⟩

/-!
## Claim C2
-/

/-- C2: the patcher is not idempotent, although the negative lookahead of
the gas patterns is clearly meant to make it so.  On a block whose
gas_wanted value is numeric, the first run annotates the value; on the
second run the search pattern still matches, because the digit run can
backtrack to leave a digit in front of the annotation and satisfy the
negative lookahead, so the substitution appends the annotation again and
the run reports modified = true instead of taking the no-changes path. -/
theorem C2_second_run_modifies :
    fix_txresponse_in_content (lc "TxResponse \x7b\n    gas_wanted: 100,\n\x7d") 1 =
      (lc "TxResponse \x7b\n    gas_wanted: 100 as i64,\n\x7d", true) ∧
    fix_txresponse_in_content
        (lc "TxResponse \x7b\n    gas_wanted: 100 as i64,\n\x7d") 1 =
      (lc "TxResponse \x7b\n    gas_wanted: 100 as i64 as i64,\n\x7d", true) := by
  exact ⟨by decide, by decide⟩

/-!
## Claim C3
-/

/-- C3 counterexample: on a buffer whose opener block never closes (the
depth counter never returns to zero before the end of the buffer), the
patcher does not leave the region from the opener to the end of the buffer
unmodified: the gas_wanted line inside the unterminated region is
rewritten in place and the run reports a modification. -/
theorem C3_counterexample :
    fix_txresponse_in_content (lc "TxResponse \x7b\n    gas_wanted: 100,") 1 =
      (lc "TxResponse \x7b\n    gas_wanted: 100 as i64,", true) := by
  decide

/-- C3 (amended): an unterminated block is collected to the end of the
buffer and still passed to the field fixer, so its region may be rewritten
in place; the in-place write-back drops any inserted line falling past the
end of the buffer, the line count is preserved, and the scan then
terminates for the buffer without locating further blocks. -/
theorem C3_unterminated_behaviour (lines : List Line) (i : Nat) (m : Bool)
    (fuel : Nat) (hfuel : lines.length - i ≤ fuel) (hlt : i < lines.length)
    (hop : containsSub opener (lines.getD i []) = true)
    (hunt : 0 < (collectGo lines (lines.length - (i+1)) (i+1) 1
      [lines.getD i []]).2.2) :
    contentLoopGo fuel lines i m =
      (if fix_txresponse_fields
          (collectGo lines (lines.length - (i+1)) (i+1) 1 [lines.getD i []]).1 ≠
          (collectGo lines (lines.length - (i+1)) (i+1) 1 [lines.getD i []]).1 then
        (writeBack lines i (fix_txresponse_fields
          (collectGo lines (lines.length - (i+1)) (i+1) 1 [lines.getD i []]).1),
          true)
      else (lines, m)) ∧
    (contentLoopGo fuel lines i m).1.length = lines.length := by
  refine ⟨?_, contentLoopGo_length fuel lines i m⟩
  cases fuel with
  | zero => omega
  | succ fuel =>
    simp only [contentLoopGo]
    rw [if_pos hlt, if_pos hop]
    set r := collectGo lines (lines.length - (i + 1)) (i + 1) 1
      [lines.getD i []] with hr
    have hj : lines.length ≤ r.2.1 :=
      collectGo_unterminated lines (lines.length - (i+1)) (i+1) 1
        [lines.getD i []] (by omega) hunt
    by_cases hne : fix_txresponse_fields r.1 ≠ r.1
    · rw [if_pos hne, if_pos hne]
      exact contentLoopGo_of_le fuel _ _ true
        (by rw [writeBack_length]; exact hj)
    · rw [if_neg hne, if_neg hne]
      exact contentLoopGo_of_le fuel _ _ m hj

/-- Witness for C3: the unterminated buffer of the counterexample satisfies
the hypotheses of the amended statement. -/
theorem C3_unterminated_behaviour_witness :
    (pySplit '\n' (lc "TxResponse \x7b\n    gas_wanted: 100,")).length - 0 ≤ 2 ∧
    0 < (pySplit '\n' (lc "TxResponse \x7b\n    gas_wanted: 100,")).length ∧
    (contentLoopGo 2 (pySplit '\n' (lc "TxResponse \x7b\n    gas_wanted: 100,"))
      0 false).1.length =
      (pySplit '\n' (lc "TxResponse \x7b\n    gas_wanted: 100,")).length :=
  ⟨by decide, by decide,
    (C3_unterminated_behaviour
      (pySplit '\n' (lc "TxResponse \x7b\n    gas_wanted: 100,")) 0 false 2
      (by decide) (by decide) (by decide) (by decide)).2⟩

/-!
## Claim C4
-/

/-- C4 counterexample: on the specification example block the rewritten
output does not contain every required field exactly once, nor the claimed
events line with a trailing comma: the codespace insertion is guarded by a
pattern requiring a comma on the events line, which the example events
line (events: vec![] with no comma) fails to match, so codespace is never
inserted and the events line keeps no comma. -/
theorem C4_counterexample :
    fix_txresponse_fields exampleBlock =
      [lc "TxResponse \x7b", lc "    code: 0,", lc "    data: vec![],",
       lc "    log: \"ok\",", lc "    info: String::new(),",
       lc "    gas_wanted: 100 as i64,", lc "    gas_used: 50 as i64,",
       lc "    events: vec![]", lc "\x7d"] ∧
    lc "    codespace: String::new()," ∉ fix_txresponse_fields exampleBlock ∧
    lc "    events: vec![]," ∉ fix_txresponse_fields exampleBlock := by
  exact ⟨by decide, by decide, by decide⟩

/-- C4 (amended): when the events line of the example block carries a
trailing comma, the rewritten block contains, in order, the full required
field set: code, data, log, info, gas_wanted and gas_used annotated with
as i64, events, and codespace, each exactly once. -/
theorem C4_amended_example :
    fix_txresponse_fields exampleBlockComma =
      [lc "TxResponse \x7b", lc "    code: 0,", lc "    data: vec![],",
       lc "    log: \"ok\",", lc "    info: String::new(),",
       lc "    gas_wanted: 100 as i64,", lc "    gas_used: 50 as i64,",
       lc "    events: vec![],", lc "    codespace: String::new(),",
       lc "\x7d"] := by
  decide

/-!
## Claim C7
-/

/-- C7: a gas line already carrying the as i64 annotation is not left
byte-identical by fix_txresponse_fields, against both the claim and the
evident intent of the negative lookahead in the source pattern: the digit
run backtracks, the search succeeds, and the substitution appends a second
annotation directly after the digits. -/
theorem C7_annotated_line_rewritten :
    fix_txresponse_fields
      [lc "TxResponse \x7b", lc "    gas_wanted: 100 as i64,", lc "\x7d"] =
      [lc "TxResponse \x7b", lc "    gas_wanted: 100 as i64 as i64,",
       lc "\x7d"] := by
  decide

/-!
## Claim C9
-/

/-- C9: for every input buffer and start line, the output of
fix_txresponse_in_content has exactly the same number of lines as the
input: the block replacement assigns the rewritten lines into the original
line list in place, so surplus lines overwrite the lines that follow and
writes past the end of the list are dropped, and the list length never
changes. -/
theorem C9_line_count (content : Line) (start_line : Nat) :
    countLines (fix_txresponse_in_content content start_line).1 =
      countLines content := by
  simp only [countLines, fix_txresponse_in_content]
  have hnn : ∀ x ∈ (contentLoopGo (pySplit '\n' content).length
      (pySplit '\n' content) (start_line - 1) false).1, '\n' ∉ x :=
    contentLoopGo_noNL _ _ _ _ (pySplit_no_sep '\n' content)
  have hlen := contentLoopGo_length (pySplit '\n' content).length
    (pySplit '\n' content) (start_line - 1) false
  have hne : (contentLoopGo (pySplit '\n' content).length
      (pySplit '\n' content) (start_line - 1) false).1 ≠ [] := by
    intro hnil
    rw [hnil] at hlen
    exact pySplit_ne_nil '\n' content (List.length_eq_zero.1 hlen.symm)
  rw [pySplit_pyJoin '\n' _ hnn hne, hlen]

/-!
## Claim C10
-/

/-- C10: in fix_all_txresponse.py an opener marker on the very first line
of the file is never treated as a block, because the guard requires the
line index to be positive; when no other line contains the opener marker,
the whole buffer is copied through to the output unpatched. -/
theorem C10_first_line_opener_skipped (content : Line) (l0 : Line)
    (rest : List Line) (hsplit : pySplit '\n' content = l0 :: rest)
    (_hop : containsSub opener l0 = true)
    (hrest : ∀ x ∈ rest, containsSub opener x = false) :
    fix_txresponse_in_file_content content = content := by
  simp only [fix_txresponse_in_file_content]
  rw [hsplit]
  simp only [List.length_cons, fixAllGo]
  rw [if_pos (Nat.succ_pos rest.length)]
  have hguard : (containsSub opener ((l0 :: rest).getD 0 []) &&
      decide (0 < 0)) = false := by
    simp
  rw [hguard]
  simp only [Bool.false_eq_true, if_neg, not_false_iff]
  rw [fixAllGo_copy rest.length (l0 :: rest) 1 ([] ++ [(l0 :: rest).getD 0 []])
    (by simp) (by simpa using hrest)]
  simp only [List.getD_cons_zero, List.nil_append, List.drop_succ_cons,
    List.drop_zero]
  rw [show ([l0] ++ rest : List Line) = l0 :: rest from rfl, ← hsplit]
  exact pyJoin_pySplit '\n' content

/-- Witness for C10: a buffer whose only opener line is the first line is
returned unchanged by the fix_all content transformation. -/
theorem C10_first_line_opener_skipped_witness :
    pySplit '\n' (lc "TxResponse \x7b\n    code: 0,\n\x7d") =
      [lc "TxResponse \x7b", lc "    code: 0,", lc "\x7d"] ∧
    containsSub opener (lc "TxResponse \x7b") = true ∧
    fix_txresponse_in_file_content (lc "TxResponse \x7b\n    code: 0,\n\x7d") =
      lc "TxResponse \x7b\n    code: 0,\n\x7d" :=
  ⟨by decide, by decide,
    C10_first_line_opener_skipped (lc "TxResponse \x7b\n    code: 0,\n\x7d")
      (lc "TxResponse \x7b") [lc "    code: 0,", lc "\x7d"]
      (by decide) (by decide) (by decide)⟩

/-!
## Claim C5
-/

/-- C5: whenever the run of fix_txresponse.py modifies the buffer, it
first writes a backup at the original path with the .backup suffix whose
content is exactly the pre-run content, and only then overwrites the
original file with the fixed content; when nothing was modified no file is
written at all, and both cases exit with code zero. -/
theorem C5_backup_before_overwrite (fs : Line → Option Line)
    (prog path content fixed : Line) (hread : fs path = some content) :
    (fix_txresponse_in_content content 670 = (fixed, true) →
      fix_main fs [prog, path] =
        ⟨0, [(path ++ lc ".backup", content), (path, fixed)]⟩) ∧
    (fix_txresponse_in_content content 670 = (fixed, false) →
      fix_main fs [prog, path] = ⟨0, []⟩) := by
  constructor <;> intro h <;>
    simp [fix_main, hread, h]

/-- Witness for C5: a 672-line file whose block starts at line 670 is
patched; the backup write carries the original content and precedes the
overwrite. -/
theorem C5_backup_before_overwrite_witness :
    c5Fs (lc "app.rs") = some (pyJoin '\n' (List.replicate 669 [] ++
      [lc "TxResponse \x7b", lc "    gas_wanted: 100,", lc "\x7d"])) ∧
    fix_main c5Fs [lc "prog", lc "app.rs"] =
      ⟨0, [(lc "app.rs" ++ lc ".backup",
            pyJoin '\n' (List.replicate 669 [] ++
              [lc "TxResponse \x7b", lc "    gas_wanted: 100,", lc "\x7d"])),
           (lc "app.rs",
            pyJoin '\n' (List.replicate 669 [] ++
              [lc "TxResponse \x7b", lc "    gas_wanted: 100 as i64,",
               lc "\x7d"]))]⟩ :=
  ⟨by decide,
    (C5_backup_before_overwrite c5Fs (lc "prog") (lc "app.rs")
      (pyJoin '\n' (List.replicate 669 [] ++
        [lc "TxResponse \x7b", lc "    gas_wanted: 100,", lc "\x7d"]))
      (pyJoin '\n' (List.replicate 669 [] ++
        [lc "TxResponse \x7b", lc "    gas_wanted: 100 as i64,", lc "\x7d"]))
      (by decide)).1 (by decide)⟩

/-!
## Claim C6
-/

/-- C6: on a file with no line containing the opener marker, the run of
fix_txresponse.py writes nothing (so the file stays byte-identical and no
backup is created) and exits with code zero. -/
theorem C6_no_opener_untouched (fs : Line → Option Line)
    (prog path content : Line) (hread : fs path = some content)
    (hnone : ∀ x ∈ pySplit '\n' content, containsSub opener x = false) :
    fix_main fs [prog, path] = ⟨0, []⟩ := by
  have hloop := contentLoopGo_no_opener (pySplit '\n' content).length
    (pySplit '\n' content) 669 false hnone
  simp [fix_main, hread, fix_txresponse_in_content, hloop]

/-- Witness for C6: a two-line file with no opener marker is left alone
with exit code zero. -/
theorem C6_no_opener_untouched_witness :
    c6Fs (lc "lib.rs") = some (lc "fn main() \x7b\x7d\nlet x = 1;") ∧
    fix_main c6Fs [lc "prog", lc "lib.rs"] = ⟨0, []⟩ :=
  ⟨by decide,
    C6_no_opener_untouched c6Fs (lc "prog") (lc "lib.rs")
      (lc "fn main() \x7b\x7d\nlet x = 1;") (by decide) (by decide)⟩

/-!
## Claim C8
-/

/-- C8: a wrong argument count (either tool), an invalid stage value
(template tool) and a missing target or template file each make the run
exit with code one without writing any file. -/
theorem C8_error_paths :
    (∀ (fs : Line → Option Line) (argv : List Line), argv.length ≠ 2 →
      fix_main fs argv = ⟨1, []⟩) ∧
    (∀ (fs : Line → Option Line) (prog path : Line), fs path = none →
      fix_main fs [prog, path] = ⟨1, []⟩) ∧
    (∀ (fs : Line → Option Line) (root : Line) (argv : List Line),
      argv.length ≠ 2 → generate_claude_md_run fs root argv = ⟨1, []⟩) ∧
    (∀ (fs : Line → Option Line) (root prog s : Line),
      pyStrip (pyLower s) ≠ lc "tick" → pyStrip (pyLower s) ≠ lc "tock" →
      generate_claude_md_run fs root [prog, s] = ⟨1, []⟩) ∧
    (∀ (fs : Line → Option Line) (root prog s : Line),
      (pyStrip (pyLower s) = lc "tick" ∨ pyStrip (pyLower s) = lc "tock") →
      fs (root ++ lc "/CLAUDE.md.template") = none →
      generate_claude_md_run fs root [prog, s] = ⟨1, []⟩) := by
  refine ⟨?_, ?_, ?_, ?_, ?_⟩
  · intro fs argv h
    simp [fix_main, h]
  · intro fs prog path h
    simp [fix_main, h]
  · intro fs root argv h
    simp [generate_claude_md_run, h]
  · intro fs root prog s h1 h2
    simp only [generate_claude_md_run, List.length_cons, List.length_nil,
      List.getD_cons_succ, List.getD_cons_zero]
    rw [if_neg (by omega)]
    by_cases hlen : (pyStrip (pyLower s)).length > 10
    · rw [if_pos hlen]
    · rw [if_neg hlen, if_pos ⟨h1, h2⟩]
  · intro fs root prog s hv hnone
    simp only [generate_claude_md_run, List.length_cons, List.length_nil,
      List.getD_cons_succ, List.getD_cons_zero]
    rw [if_neg (by omega)]
    rcases hv with hv | hv <;> rw [hv] <;>
      rw [if_neg (by decide), if_neg (by decide), if_neg (by decide), hnone]

/-- Witness for C8: each error path at a concrete invocation. -/
theorem C8_error_paths_witness :
    fix_main (fun _ => none) [] = ⟨1, []⟩ ∧
    fix_main (fun _ => none) [lc "prog", lc "gone.rs"] = ⟨1, []⟩ ∧
    generate_claude_md_run (fun _ => none) (lc "/repo") [lc "prog"] = ⟨1, []⟩ ∧
    generate_claude_md_run (fun _ => none) (lc "/repo")
      [lc "prog", lc "TACK "] = ⟨1, []⟩ ∧
    generate_claude_md_run c8Fs (lc "/repo") [lc "prog", lc " Tick "] =
      ⟨1, []⟩ :=
  ⟨C8_error_paths.1 (fun _ => none) [] (by decide),
   C8_error_paths.2.1 (fun _ => none) (lc "prog") (lc "gone.rs") rfl,
   C8_error_paths.2.2.1 (fun _ => none) (lc "/repo") [lc "prog"] (by decide),
   C8_error_paths.2.2.2.1 (fun _ => none) (lc "/repo") (lc "prog")
     (lc "TACK ") (by decide) (by decide),
   C8_error_paths.2.2.2.2 c8Fs (lc "/repo") (lc "prog") (lc " Tick ")
     (Or.inl (by decide)) (by decide)⟩
